import Mathlib

/-!
Verification of the ownership auto-assignment / reassignment matching engine
of the arhivare-web-app repository.

The Python source (app/crud/fond.py, app/api/routes/fonds.py) is embedded
shallowly: Python strings are `List Char`, Python floats arising from the
similarity arithmetic are `ℚ` (all values are finite small rationals and all
threshold comparisons are far from rounding boundaries), `None` is `Option`,
database rows are records in lists, and exceptions are `Except`.

Unicode modelling boundary: Python `str.lower` and the regex class `\w` are
total over Unicode; the embedding models them exactly on ASCII plus the
Romanian diacritic letters that occur in the engine's city-name list
(ș ț ă â î and their capitals); other characters are left unchanged by
lowering and classified by `isWordChar` below.
-/

set_option maxRecDepth 100000

-- Restore kernel-style reducibility of the core rational operations so that
-- concrete similarity values can be evaluated by `decide`.
unseal Rat.mul Rat.inv Rat.add

namespace Arhivare

/-- A Python string, as a list of characters. -/
abbrev Str := List Char

/-- The characters Python `str.strip()` / regex `\s` treat as whitespace
(ASCII fragment). -/
def isPySpace (c : Char) : Bool :=
  c == ' ' || c == '\t' || c == '\n' || c == '\r' || c == '\x0b' || c == '\x0c'

/-- The Romanian diacritic letters used by the engine's city list, with
their capitals. -/
def romanianExtra : List Char := ['ș', 'Ș', 'ț', 'Ț', 'ă', 'Ă', 'â', 'Â', 'î', 'Î']

/-- Python regex `\w` membership, on the modelled alphabet. -/
def isWordChar (c : Char) : Bool :=
  c.isAlphanum || c == '_' || romanianExtra.contains c

/-- The uppercase/lowercase pairs handled by the model of `str.lower()`. -/
def lowerPairs : List (Char × Char) :=
  [('A', 'a'), ('B', 'b'), ('C', 'c'), ('D', 'd'), ('E', 'e'), ('F', 'f'),
   ('G', 'g'), ('H', 'h'), ('I', 'i'), ('J', 'j'), ('K', 'k'), ('L', 'l'),
   ('M', 'm'), ('N', 'n'), ('O', 'o'), ('P', 'p'), ('Q', 'q'), ('R', 'r'),
   ('S', 's'), ('T', 't'), ('U', 'u'), ('V', 'v'), ('W', 'w'), ('X', 'x'),
   ('Y', 'y'), ('Z', 'z'), ('Ș', 'ș'), ('Ț', 'ț'), ('Ă', 'ă'), ('Â', 'â'),
   ('Î', 'î')]

/-- Python `str.lower()`, character-wise, on the modelled alphabet. -/
def pyLowerChar (c : Char) : Char :=
  ((lowerPairs.find? (fun p => p.fst == c)).map (fun p => p.snd)).getD c

/-- Python `str.lower()` on a whole string. -/
def pyLower (s : Str) : Str := s.map pyLowerChar

/-- Remove trailing whitespace (the right half of Python `str.strip()`). -/
def dropTrailing : Str → Str
  | [] => []
  | c :: rest =>
    let r := dropTrailing rest
    if r.isEmpty && isPySpace c then [] else c :: r

/-- Python `str.strip()`. -/
def pyStrip (s : Str) : Str := dropTrailing (s.dropWhile isPySpace)

/-- Worker for `pyReplaceDel`: scan left to right; `skip > 0` means the
current character belongs to an occurrence of the pattern already matched and
is dropped. -/
def pyReplaceDelGo (pat : Str) : Nat → Str → Str
  | _, [] => []
  | skip + 1, _ :: rest => pyReplaceDelGo pat skip rest
  | 0, c :: rest =>
    if pat.isPrefixOf (c :: rest) then pyReplaceDelGo pat (pat.length - 1) rest
    else c :: pyReplaceDelGo pat 0 rest

/-- Python `s.replace(pat, '')` (delete all non-overlapping occurrences,
scanning left to right); `pat = ''` is the Python identity case. -/
def pyReplaceDel (pat s : Str) : Str :=
  if pat.isEmpty then s else pyReplaceDelGo pat 0 s

/-- Python `pat in s` (substring containment). -/
def occursIn (pat : Str) : Str → Bool
  | [] => pat.isEmpty
  | c :: rest => pat.isPrefixOf (c :: rest) || occursIn pat rest

/-- Python `re.sub(r'[^\w\s]', ' ', s)`. -/
def punctToSpace (s : Str) : Str :=
  s.map (fun c => if isWordChar c || isPySpace c then c else ' ')

/-- Worker for `collapseWs`; the flag records whether the previous input
character was part of a whitespace run already emitted as one space. -/
def collapseWsGo : Bool → Str → Str
  | _, [] => []
  | inWs, c :: rest =>
    if isPySpace c then
      if inWs then collapseWsGo true rest else ' ' :: collapseWsGo true rest
    else
      c :: collapseWsGo false rest

/-- Python `re.sub(r'\s+', ' ', s)`: every maximal whitespace run becomes one
space. -/
def collapseWs (s : Str) : Str := collapseWsGo false s

/-- Worker for `splitWs`; `acc` is the current word, reversed. -/
def splitWsGo (acc : Str) : Str → List Str
  | [] => if acc.isEmpty then [] else [acc.reverse]
  | c :: rest =>
    if isPySpace c then
      if acc.isEmpty then splitWsGo [] rest else acc.reverse :: splitWsGo [] rest
    else
      splitWsGo (c :: acc) rest

/-- Python `str.split()` with no argument: split on whitespace runs, dropping
empty pieces. -/
def splitWs (s : Str) : List Str := splitWsGo [] s

/-- The substring list of `normalize_name` in app/crud/fond.py line 175, in
source order: `[' srl', ' sa', ' sc', ' ltd', ' inc', ' corp', 'srl', 'sa', 'sc']`. -/
def suffixList : List Str :=
  [(" srl".toList), (" sa".toList), (" sc".toList), (" ltd".toList),
   (" inc".toList), (" corp".toList), ("srl".toList), ("sa".toList), ("sc".toList)]

/-- The suffix-stripping loop of `normalize_name`:
`for suffix in [...]: normalized = normalized.replace(suffix, '').strip()`. -/
def stripLegalSuffixes (s : Str) : Str :=
  suffixList.foldl (fun acc p => pyStrip (pyReplaceDel p acc)) s

/-- `normalize_name` from app/crud/fond.py lines 170-185: lowercase and trim,
strip the legal-entity substrings, replace punctuation by spaces, collapse
whitespace runs and trim. -/
def pyNormalizeName (s : Str) : Str :=
  pyStrip (collapseWs (punctToSpace (stripLegalSuffixes (pyStrip (pyLower s)))))

/-- The city-name bonus list of `calculate_company_similarity`
(app/crud/fond.py line 218). -/
def importantWords : List Str :=
  [("brasov".toList), ("brașov".toList), ("cluj".toList), ("bucuresti".toList),
   ("bucurești".toList), ("timisoara".toList), ("timișoara".toList),
   ("iasi".toList), ("iași".toList)]

/-- The word set of a normalized name: whitespace tokens longer than two
characters, as a duplicate-free list (Python `set`). -/
def wordTokens (s : Str) : List Str :=
  ((splitWs s).filter (fun w => 2 < w.length)).dedup

/-- `calculate_company_similarity` from app/crud/fond.py lines 165-223:
exact match of normalized names scores 1.0; containment scores
`min len / max len * 0.9`; otherwise word overlap `|common| / max` with a
0.1 city bonus per common important word, clamped at 1.0. -/
def calculateCompanySimilarity (holderName companyName : Str) : ℚ :=
  let nh := pyNormalizeName holderName
  let nc := pyNormalizeName companyName
  if nh = nc then 1
  else if occursIn nh nc || occursIn nc nh then
    (Nat.min nh.length nc.length : ℚ) / (Nat.max nh.length nc.length : ℚ) * (9 / 10)
  else
    let hw := wordTokens nh
    let cw := wordTokens nc
    if hw.isEmpty || cw.isEmpty then 0
    else
      let common := hw.filter (fun w => decide (w ∈ cw))
      if common.isEmpty then 0
      else
        let base := (common.length : ℚ) / (Nat.max hw.length cw.length : ℚ)
        let withBonus :=
          common.foldl
            (fun acc w => if w ∈ importantWords then acc + 1 / 10 else acc) base
        -- Python `min(similarity, 1.0)`
        if withBonus ≤ 1 then withBonus else 1

/-- The word-overlap score exactly as the specification words it: word sets
excluding tokens of length ≤ 2; 0.0 when either set is empty;
`|intersection| / max(|wordsA|, |wordsB|)` plus 0.1 per intersection token in
the city list, clamped to at most 1.0. Written for comparison with the
word-overlap branch of `calculateCompanySimilarity`. -/
def wordOverlapScoreSpec (a b : Str) : ℚ :=
  let wa := wordTokens (pyNormalizeName a)
  let wb := wordTokens (pyNormalizeName b)
  if wa.isEmpty || wb.isEmpty then 0
  else
    let inter := wa.filter (fun w => decide (w ∈ wb))
    let raw := (inter.length : ℚ) / (Nat.max wa.length wb.length : ℚ) +
      ((inter.filter (fun w => decide (w ∈ importantWords))).length : ℚ) * (1 / 10)
    if raw ≤ 1 then raw else 1

/-- `get_match_type` from app/crud/fond.py lines 226-235. -/
def getMatchType (similarity : ℚ) : Str :=
  if 95 / 100 ≤ similarity then ("exact".toList)
  else if 8 / 10 ≤ similarity then ("high".toList)
  else if 6 / 10 ≤ similarity then ("medium".toList)
  else ("low".toList)

deriving instance DecidableEq for Except

/-! ## Data model: users, fonds, candidates -/

/-- The role strings used by the application. -/
def rAdmin : Str := ("admin".toList)

/-- The client role string. -/
def rClient : Str := ("client".toList)

/-- The audit role string. -/
def rAudit : Str := ("audit".toList)

/-- A row of the `users` table, restricted to the fields the matching engine
reads. `Option` fields model SQL NULL / Python `None`. -/
structure PyUser where
  id : Nat
  username : Str
  companyName : Option Str
  contactEmail : Option Str
  role : Str
deriving DecidableEq

/-- A row of the `fonds` table, restricted to the fields the engine and its
routes read or write. -/
structure FondRec where
  id : Nat
  companyName : Option Str
  holderName : Option Str
  address : Option Str
  email : Option Str
  phone : Option Str
  notes : Option Str
  sourceUrl : Option Str
  active : Bool
  ownerId : Option Nat
deriving DecidableEq

/-- A `FondUpdate` payload after `model_dump(exclude_unset=True)`: the outer
`Option` is "was the field provided", the inner value is what was provided
(possibly an explicit `None`). -/
structure FondUpdateRec where
  companyName : Option (Option Str)
  holderName : Option (Option Str)
  address : Option (Option Str)
  email : Option (Option Str)
  phone : Option (Option Str)
  notes : Option (Option Str)
  sourceUrl : Option (Option Str)
  active : Option Bool
  ownerId : Option (Option Nat)
deriving DecidableEq

/-- Python truthiness of an optional string (`None` and `""` are falsy). -/
def truthyStr : Option Str → Bool
  | none => false
  | some s => !s.isEmpty

/-- Python truthiness of an optional integer (`None` and `0` are falsy). -/
def truthyNat : Option Nat → Bool
  | none => false
  | some n => n != 0

/-- One entry of the `potential_owners` list built by
`find_potential_owners_for_holder` (app/crud/fond.py lines 150-157); the
fields are exactly the dictionary keys, in source order. -/
structure Candidate where
  userId : Nat
  username : Str
  companyName : Str
  contactEmail : Option Str
  similarity : ℚ
  matchType : Str
deriving DecidableEq

/-- The candidate dictionary built for one client. -/
def mkCandidate (u : PyUser) (sim : ℚ) : Candidate :=
  ⟨u.id, u.username, (u.companyName).getD [], u.contactEmail, sim, getMatchType sim⟩

/-- `potential_owners.sort(key=..., reverse=True)`: descending by similarity. -/
def candidateBySimDesc (a b : Candidate) : Prop := b.similarity ≤ a.similarity

instance : DecidableRel candidateBySimDesc :=
  fun a b => inferInstanceAs (Decidable (b.similarity ≤ a.similarity))

/-- Stable descending sort by similarity (Python `list.sort` with
`reverse=True` is stable). -/
def sortBySimilarityDesc (l : List Candidate) : List Candidate :=
  l.insertionSort candidateBySimDesc

/-- The client pool queried by `find_potential_owners_for_holder`: users with
role `client`, minus the excluded current owner when that argument is truthy
(`if exclude_current_owner:` in the source, so `None` and `0` disable the
filter). -/
def eligibleClients (users : List PyUser) (excl : Option Nat) : List PyUser :=
  let clients := users.filter (fun u => decide (u.role = rClient))
  if truthyNat excl then clients.filter (fun u => decide (u.id ≠ (excl.getD 0)))
  else clients

/-- The body of the client loop of `find_potential_owners_for_holder`:
skip clients with a falsy company name, keep similarity `≥ 0.6` (the source
computes the similarity once and binds it to `similarity`; it is written out
twice here). -/
def candidateOf (holderName : Option Str) (c : PyUser) : Option Candidate :=
  if !truthyStr c.companyName then none
  else if 6 / 10 ≤ calculateCompanySimilarity (holderName.getD [])
      ((c.companyName).getD []) then
    some (mkCandidate c
      (calculateCompanySimilarity (holderName.getD []) ((c.companyName).getD [])))
  else none

/-- `find_potential_owners_for_holder` from app/crud/fond.py lines 123-162:
guard on a falsy holder name, score every client with a truthy company name,
keep scores `≥ 0.6`, sort descending. -/
def findPotentialOwnersForHolder (users : List PyUser) (holderName : Option Str)
    (excludeCurrentOwner : Option Nat) : List Candidate :=
  if !truthyStr holderName then []
  else
    sortBySimilarityDesc
      ((eligibleClients users excludeCurrentOwner).filterMap
        (candidateOf holderName))

/-! ## Exceptions -/

/-- The Python exceptions relevant to the claims. -/
inductive PyErr where
  | attributeError
  | keyError
deriving DecidableEq

/-- `normalize_name` applied to a possibly-`None` argument: `None.lower()`
raises `AttributeError`; the function itself has no null guard. -/
def pyNormalizeNameOpt : Option Str → Except PyErr Str
  | none => .error .attributeError
  | some s => .ok (pyNormalizeName s)

/-- `calculate_company_similarity` applied to possibly-`None` arguments; a
`None` on either side raises `AttributeError` inside `normalize_name`. -/
def calculateCompanySimilarityOpt : Option Str → Option Str → Except PyErr ℚ
  | some a, some b => .ok (calculateCompanySimilarity a b)
  | _, _ => .error .attributeError

/-- The client-scoring loop of `find_potential_owners_for_holder` with
explicit exception propagation. -/
def collectCandidatesE (holderName : Option Str) :
    List PyUser → Except PyErr (List Candidate)
  | [] => .ok []
  | c :: rest =>
    if !truthyStr c.companyName then collectCandidatesE holderName rest
    else
      match calculateCompanySimilarityOpt holderName c.companyName with
      | .error e => .error e
      | .ok sim =>
        match collectCandidatesE holderName rest with
        | .error e => .error e
        | .ok others =>
          .ok (if 6 / 10 ≤ sim then mkCandidate c sim :: others else others)

/-- `find_potential_owners_for_holder` with explicit exception propagation. -/
def findPotentialOwnersForHolderE (users : List PyUser) (holderName : Option Str)
    (excludeCurrentOwner : Option Nat) : Except PyErr (List Candidate) :=
  if !truthyStr holderName then .ok []
  else
    match collectCandidatesE holderName (eligibleClients users excludeCurrentOwner) with
    | .error e => .error e
    | .ok cands => .ok (sortBySimilarityDesc cands)

/-! ## Update path (`update_fond`, app/crud/fond.py lines 257-305) -/

/-- Apply one optional field of the payload. -/
def setField {α : Type} (cur : α) : Option α → α
  | none => cur
  | some v => v

/-- The `setattr` loop over `model_dump(exclude_unset=True)`. -/
def applyFondUpdate (f : FondRec) (u : FondUpdateRec) : FondRec :=
  { f with
    companyName := setField f.companyName u.companyName
    holderName := setField f.holderName u.holderName
    address := setField f.address u.address
    email := setField f.email u.email
    phone := setField f.phone u.phone
    notes := setField f.notes u.notes
    sourceUrl := setField f.sourceUrl u.sourceUrl
    active := setField f.active u.active
    ownerId := setField f.ownerId u.ownerId }

/-- `update_fond` on a fond already fetched from the database: apply the
payload, then, if the holder name genuinely changed (old and new both truthy
and different), look for potential owners excluding the pre-update owner and
auto-reassign only when the best match scores `≥ 0.95` (the `≥ 0.8` test in
the source only gates logging around the inner `≥ 0.95` test). -/
def updateFond (users : List PyUser) (f : FondRec) (upd : FondUpdateRec) : FondRec :=
  let oldHolder := f.holderName
  let oldOwner := f.ownerId
  let f1 := applyFondUpdate f upd
  let newHolder := f1.holderName
  if oldHolder ≠ newHolder ∧ truthyStr newHolder = true ∧ truthyStr oldHolder = true then
    match findPotentialOwnersForHolder users newHolder oldOwner with
    | [] => f1
    | best :: _ =>
      if 8 / 10 ≤ best.similarity then
        if 95 / 100 ≤ best.similarity then { f1 with ownerId := some best.userId }
        else f1
      else f1
  else f1

/-! ## Create path (`create_fond` route, app/api/routes/fonds.py lines 129-233) -/

/-- The token list used by strategy 3 of `find_client_by_company_name`
(lines 160, 166). -/
def entityTokens : List Str :=
  [("srl".toList), ("sa".toList), ("sc".toList), ("ltd".toList),
   ("inc".toList), ("corp".toList)]

/-- The strategy-3 cleanup: for each token `p`, delete `' p'` then `'p '`
(plain `str.replace`, no strip). -/
def removeEntityTokens (s : Str) : Str :=
  entityTokens.foldl
    (fun acc p => pyReplaceDel (p ++ [' ']) (pyReplaceDel (' ' :: p) acc)) s

/-- The `db.query(User).filter(User.role == "client").all()` pool used by
`find_client_by_company_name`. -/
def clientPool (users : List PyUser) : List PyUser :=
  users.filter (fun u => decide (u.role = rClient))

/-- Strategy 1 of `find_client_by_company_name` (lines 140-147): first client
whose SQL-lowercased company name equals the lowercased, stripped holder
name. -/
def strategyOne (pool : List PyUser) (normalized : Str) : Option PyUser :=
  pool.find? (fun u => decide ((u.companyName).map pyLower = some normalized))

/-- Strategy 2 (lines 149-156): first client with a truthy company name whose
lowercased, stripped company name contains or is contained in the holder
name. -/
def strategyTwo (pool : List PyUser) (normalized : Str) : Option PyUser :=
  pool.find? (fun c =>
    truthyStr c.companyName &&
    (let cn := pyStrip (pyLower ((c.companyName).getD []))
     occursIn cn normalized || occursIn normalized cn))

/-- Strategy 3 (lines 158-177): after removing the entity tokens from both
sides, first client where both word sets have at least two words and at
least `max(1, min // 2)` words are shared. -/
def strategyThree (pool : List PyUser) (normalized2 : Str) : Option PyUser :=
  pool.find? (fun c =>
    truthyStr c.companyName &&
    (let clean := removeEntityTokens (pyStrip (pyLower ((c.companyName).getD [])))
     let hw := (splitWs normalized2).dedup
     let cw := (splitWs clean).dedup
     decide (2 ≤ hw.length) && decide (2 ≤ cw.length) &&
     (let common := hw.filter (fun w => decide (w ∈ cw))
      decide (Nat.max 1 (Nat.min hw.length cw.length / 2) ≤ common.length))))

/-- `find_client_by_company_name` from app/api/routes/fonds.py lines 129-179:
three strategies tried in order — exact lowercased equality, substring
containment either way, then at-least-half common words (each side needing
at least two words). Returns the first matching client. -/
def findClientByCompanyName (users : List PyUser) (companyName : Option Str) :
    Option PyUser :=
  if !truthyStr companyName then none
  else
    match strategyOne (clientPool users) (pyStrip (pyLower (companyName.getD []))) with
    | some c => some c
    | none =>
      match strategyTwo (clientPool users)
          (pyStrip (pyLower (companyName.getD []))) with
      | some c => some c
      | none =>
        strategyThree (clientPool users)
          (removeEntityTokens (pyStrip (pyLower (companyName.getD []))))

/-- `db.query(User).filter(User.id == user_id).first()`. -/
def getUserById (users : List PyUser) (i : Nat) : Option PyUser :=
  users.find? (fun u => u.id == i)

/-- Outcome of the `create_fond` route: an HTTP error or the owner id the
fond is created with. -/
inductive CreateOutcome where
  | httpError (code : Nat)
  | created (ownerId : Option Nat)
deriving DecidableEq

/-- The final owner validation of the create route (lines 228-231):
`if final_owner_id:` then the owner must exist and be a client. -/
def validateCreateOwner (users : List PyUser) (finalOwner : Option Nat) :
    CreateOutcome :=
  if truthyNat finalOwner then
    match getUserById users (finalOwner.getD 0) with
    | none => .httpError 400
    | some owner =>
      if owner.role = rClient then .created finalOwner else .httpError 400
  else .created finalOwner

/-- The owner-determination logic of the `create_fond` route
(app/api/routes/fonds.py lines 182-233). -/
def createFondRouteOwner (users : List PyUser) (currentUser : PyUser)
    (ownerIdParam : Option Nat) (holderName : Option Str) : CreateOutcome :=
  if currentUser.role = rAudit then .httpError 403
  else if currentUser.role = rAdmin then
    let finalOwner :=
      if truthyNat ownerIdParam then ownerIdParam
      else (findClientByCompanyName users holderName).map (fun u => u.id)
    validateCreateOwner users finalOwner
  else if currentUser.role = rClient then
    if truthyNat ownerIdParam ∧ ownerIdParam ≠ some currentUser.id then .httpError 403
    else validateCreateOwner users (some currentUser.id)
  else .httpError 403

/-! ## The PUT /fonds/{id} route (app/api/routes/fonds.py lines 237-294) -/

/-- `can_user_edit_fond` from app/crud/fond.py lines 377-396. -/
def canUserEditFond (fonds : List FondRec) (user : PyUser) (fondId : Nat) : Bool :=
  if user.role = rAdmin then true
  else if user.role = rAudit then false
  else if user.role = rClient then
    match fonds.find? (fun f => f.id == fondId) with
    | none => false
    | some f => f.ownerId == some user.id
  else false

/-- The top-level function names defined in module `app.crud.fond`
(transcribed from the source file). -/
def crudFondModuleNames : List String :=
  ["get_fond", "get_fonds", "get_my_fonds", "get_fonds_for_user",
   "search_fonds", "search_my_fonds", "search_all_fonds",
   "find_potential_owners_for_holder", "calculate_company_similarity",
   "get_match_type", "create_fond", "update_fond",
   "get_reassignment_suggestions", "apply_reassignment",
   "can_user_edit_fond", "can_user_view_fond", "validate_fond_access",
   "soft_delete_fond", "permanently_delete_fond", "get_fonds_count",
   "get_my_fonds_count", "search_fonds_count", "search_my_fonds_count",
   "assign_fond_ownership", "remove_fond_ownership",
   "transfer_fond_ownership", "bulk_assign_fonds", "get_unassigned_fonds",
   "get_unassigned_fonds_count", "get_fonds_by_client",
   "get_ownership_statistics", "get_client_statistics",
   "get_fonds_summary_for_user"]

/-- Python attribute lookup on a module: `AttributeError` when the name is
not defined there. -/
def moduleAttr (defNames : List String) (name : String) : Except PyErr String :=
  if name ∈ defNames then .ok name else .error .attributeError

/-- Result of a route invocation. -/
inductive RouteResult (α : Type) where
  | http (code : Nat)
  | pyError (e : PyErr)
  | ok (a : α)
deriving DecidableEq

/-- The PUT /fonds/{id} handler: permission check, then the call
`crud_fond.update_fond_with_reassignment_detection(...)`, which first
resolves that attribute on the module. `callCont` stands for whatever the
resolved function would do; it is only reachable if the attribute lookup
succeeds. -/
def updateFondRoute (fonds : List FondRec) (currentUser : PyUser) (fondId : Nat)
    (callCont : List FondRec → RouteResult (List FondRec)) :
    RouteResult (List FondRec) :=
  if !canUserEditFond fonds currentUser fondId then .http 403
  else
    match moduleAttr crudFondModuleNames ("update_fond_with_reassignment_detection") with
    | .error e => .pyError e
    | .ok _ => callCont fonds

/-! ## Bulk scan (POST /fonds/bulk-check-reassignments, lines 528-603) -/

/-- A Python value stored in one of the report dictionaries. -/
inductive PyVal where
  | vNat (n : Nat)
  | vStr (s : Str)
  | vOptStr (s : Option Str)
  | vRat (q : ℚ)
deriving DecidableEq

/-- Subscript access on a candidate dictionary: the keys present are exactly
the ones written by `find_potential_owners_for_holder`; any other key raises
`KeyError`. -/
def candidateDictGet (c : Candidate) (key : String) : Except PyErr PyVal :=
  if key = "user_id" then .ok (.vNat c.userId)
  else if key = "username" then .ok (.vStr c.username)
  else if key = "company_name" then .ok (.vStr c.companyName)
  else if key = "contact_email" then .ok (.vOptStr c.contactEmail)
  else if key = "similarity" then .ok (.vRat c.similarity)
  else if key = "match_type" then .ok (.vStr c.matchType)
  else .error .keyError

/-- `apply_reassignment` from app/crud/fond.py lines 341-373: the fond must
exist; a truthy new owner must be a client; then the owner field is written.
Returns the updated table and the success flag. -/
def applyReassignment (users : List PyUser) (fonds : List FondRec) (fondId : Nat)
    (newOwnerId : Option Nat) : List FondRec × Bool :=
  match fonds.find? (fun f => f.id == fondId) with
  | none => (fonds, false)
  | some _ =>
    let write := fun (_ : Unit) =>
      (fonds.map (fun f => if f.id == fondId then { f with ownerId := newOwnerId } else f),
       true)
    if truthyNat newOwnerId then
      match users.find? (fun u => u.id == (newOwnerId.getD 0) && decide (u.role = rClient)) with
      | none => (fonds, false)
      | some _ => write ()
    else write ()

/-- One row of the `automatic_reassignments` report list. In the source the
`old_owner_id` field reads `fond.owner_id` after `apply_reassignment` already
mutated the same session object, so it records the new owner. -/
structure AutoEntry where
  fondId : Nat
  fondName : Option Str
  holderName : Option Str
  oldOwnerId : Option Nat
  newOwnerId : PyVal
  newOwnerUsername : PyVal
  similarity : PyVal
deriving DecidableEq

/-- The `current_owner` sub-dictionary of a manual-review row. -/
structure OwnerInfo where
  id : Nat
  username : Str
  companyName : Option Str
deriving DecidableEq

/-- One row of the `reassignment_candidates` report list. -/
structure ManualEntry where
  fondId : Nat
  fondName : Option Str
  holderName : Option Str
  currentOwner : Option OwnerInfo
  suggestedId : PyVal
  suggestedUsername : PyVal
  suggestedCompany : PyVal
  suggestedSimilarity : PyVal
  suggestedConfidence : PyVal
deriving DecidableEq

/-- Mutable state threaded through the bulk loop. -/
structure BulkState where
  fonds : List FondRec
  autos : List AutoEntry
  manuals : List ManualEntry
deriving DecidableEq

/-- The body of the `for fond in all_fonds:` loop of
`bulk_check_reassignments`. Dictionary reads on the best match go through
`candidateDictGet`. -/
def bulkProcessFond (users : List PyUser) (applyAuto : Bool) (st : BulkState)
    (f : FondRec) : Except PyErr BulkState :=
  match findPotentialOwnersForHolder users f.holderName f.ownerId with
  | [] => .ok st
  | best :: _ =>
    if applyAuto && decide (95 / 100 ≤ best.similarity) then
      match candidateDictGet best ("user_id") with
      | .error e => .error e
      | .ok _ =>
        match applyReassignment users st.fonds f.id (some best.userId) with
        | (fonds2, success) =>
          if success then
            match candidateDictGet best ("username") with
            | .error e => .error e
            | .ok vUser =>
              match candidateDictGet best ("similarity") with
              | .error e => .error e
              | .ok vSim =>
                .ok { st with
                  fonds := fonds2,
                  autos := st.autos ++
                    [⟨f.id, f.companyName, f.holderName, some best.userId,
                      .vNat best.userId, vUser, vSim⟩] }
          else .ok { st with fonds := fonds2 }
    else if decide (7 / 10 ≤ best.similarity) then
      let currentOwner : Option OwnerInfo :=
        if truthyNat f.ownerId then
          match getUserById users (f.ownerId.getD 0) with
          | none => none
          | some u => some ⟨u.id, u.username, u.companyName⟩
        else none
      match candidateDictGet best ("user_id") with
      | .error e => .error e
      | .ok vId =>
        match candidateDictGet best ("username") with
        | .error e => .error e
        | .ok vUser =>
          match candidateDictGet best ("company_name") with
          | .error e => .error e
          | .ok vComp =>
            match candidateDictGet best ("similarity") with
            | .error e => .error e
            | .ok vSim =>
              match candidateDictGet best ("confidence") with
              | .error e => .error e
              | .ok vConf =>
                .ok { st with
                  manuals := st.manuals ++
                    [⟨f.id, f.companyName, f.holderName, currentOwner,
                      vId, vUser, vComp, vSim, vConf⟩] }
    else .ok st

/-- The loop over all scanned fonds, stopping at the first exception. -/
def bulkFold (users : List PyUser) (applyAuto : Bool) (st : BulkState) :
    List FondRec → Except PyErr BulkState
  | [] => .ok st
  | f :: rest =>
    match bulkProcessFond users applyAuto st f with
    | .error e => .error e
    | .ok st2 => bulkFold users applyAuto st2 rest

/-- The JSON report of a successful bulk scan. -/
structure BulkReport where
  totalFondsChecked : Nat
  automaticApplied : Nat
  manualCandidates : Nat
  autos : List AutoEntry
  manuals : List ManualEntry
  applyAutomaticWasEnabled : Bool
deriving DecidableEq

/-- `bulk_check_reassignments` (admin path): scan the first 1000 active
fonds. -/
def bulkCheckReassignments (users : List PyUser) (fonds : List FondRec)
    (applyAuto : Bool) : Except PyErr BulkReport :=
  let allFonds := (fonds.filter (fun f => f.active)).take 1000
  match bulkFold users applyAuto ⟨fonds, [], []⟩ allFonds with
  | .error e => .error e
  | .ok st =>
    .ok ⟨allFonds.length, st.autos.length, st.manuals.length,
      st.autos, st.manuals, applyAuto⟩

/-- A fond that lands in the manual-review branch of the bulk scan: a best
candidate exists, scores at least 0.7, and the automatic branch is not
taken. -/
def qualifiesManualReview (users : List PyUser) (applyAuto : Bool)
    (f : FondRec) : Bool :=
  match findPotentialOwnersForHolder users f.holderName f.ownerId with
  | [] => false
  | best :: _ =>
    decide (7 / 10 ≤ best.similarity) &&
    !(applyAuto && decide (95 / 100 ≤ best.similarity))

/-! ## Concrete fixtures used by the witnesses and counterexamples -/

/-- A client whose company name is "Steagul Rosu Brasov". -/
def tUser1 : PyUser :=
  ⟨1, ("steagul".toList), some ("Steagul Rosu Brasov".toList), none, rClient⟩

/-- An admin account. -/
def tAdmin : PyUser := ⟨9, ("boss".toList), none, none, rAdmin⟩

/-- A holder name that strictly extends tUser1's company name. -/
def tHolder : Str := ("Steagul Rosu Brasov Heritage".toList)

/-- A client whose company name scores 45/62 against tFond2's holder. -/
def tUser2 : PyUser :=
  ⟨1, ("tractorul".toList), some ("Tractorul Brasov Heritage".toList), none, rClient⟩

/-- An active, unowned fond. -/
def tFond2 : FondRec :=
  ⟨5, some ("Fond X".toList), some ("Tractorul Brasov Heritage Group".toList),
   none, none, none, none, none, true, none⟩

/-- A client matching c2Upd's new holder name exactly after normalization. -/
def c2User : PyUser :=
  ⟨1, ("uzina".toList), some ("Uzina Mecanica Brasov SRL".toList), none, rClient⟩

/-- A fond owned by user 7. -/
def c2Fond : FondRec :=
  ⟨5, some ("Fond Istoric".toList), some ("Steagul Rosu".toList),
   none, none, none, none, none, true, some 7⟩

/-- An update payload that only changes the holder name. -/
def c2Upd : FondUpdateRec :=
  ⟨none, some (some ("Uzina Mecanica Brasov".toList)), none, none, none, none,
   none, none, none⟩

/-! ## Basic lemmas about the string pipeline -/

theorem mapFixOfMem {α : Type} (f : α → α) :
    ∀ l : List α, (∀ c ∈ l, f c = c) → l.map f = l
  | [], _ => rfl
  | c :: rest, h => by
    have hc := h c (by simp)
    have hrest := mapFixOfMem f rest (fun d hd => h d (by simp [hd]))
    simp [hc, hrest]

theorem mem_dropWhile {α : Type} (p : α → Bool) :
    ∀ l : List α, ∀ c ∈ l.dropWhile p, c ∈ l
  | [], c, h => h
  | a :: rest, c, h => by
    by_cases ha : p a = true
    · simp [List.dropWhile, ha] at h
      exact List.mem_cons_of_mem a (mem_dropWhile p rest c h)
    · simp [List.dropWhile, ha] at h
      simpa using h

theorem dropTrailing_cons (a : Char) (rest : Str) :
    dropTrailing (a :: rest) =
      if ((dropTrailing rest).isEmpty && isPySpace a) = true then []
      else a :: dropTrailing rest := rfl

theorem mem_dropTrailing : ∀ l : Str, ∀ c ∈ dropTrailing l, c ∈ l
  | [], c, h => h
  | a :: rest, c, h => by
    rw [dropTrailing_cons] at h
    by_cases hcond : ((dropTrailing rest).isEmpty && isPySpace a) = true
    · rw [if_pos hcond] at h
      exact absurd h (List.not_mem_nil c)
    · rw [if_neg hcond] at h
      rcases List.mem_cons.mp h with h | h
      · simp [h]
      · exact List.mem_cons_of_mem a (mem_dropTrailing rest c h)

theorem mem_pyStrip (l : Str) : ∀ c ∈ pyStrip l, c ∈ l := by
  intro c hc
  exact mem_dropWhile isPySpace l c (mem_dropTrailing _ c hc)

theorem mem_drop {α : Type} : ∀ (n : Nat) (l : List α), ∀ c ∈ l.drop n, c ∈ l
  | 0, _, _, h => h
  | _ + 1, [], _, h => h
  | n + 1, a :: rest, c, h => by
    simp only [List.drop] at h
    exact List.mem_cons_of_mem a (mem_drop n rest c h)

theorem mem_pyReplaceDelGo (pat : Str) :
    ∀ (skip : Nat) (s : Str), ∀ c ∈ pyReplaceDelGo pat skip s, c ∈ s
  | skip, [], c, h => by cases skip <;> simp [pyReplaceDelGo] at h
  | skip + 1, a :: rest, c, h => by
    unfold pyReplaceDelGo at h
    exact List.mem_cons_of_mem a (mem_pyReplaceDelGo pat skip rest c h)
  | 0, a :: rest, c, h => by
    unfold pyReplaceDelGo at h
    by_cases hp : pat.isPrefixOf (a :: rest) = true
    · rw [if_pos hp] at h
      exact List.mem_cons_of_mem a (mem_pyReplaceDelGo pat (pat.length - 1) rest c h)
    · rw [if_neg hp] at h
      rcases List.mem_cons.mp h with h | h
      · simp [h]
      · exact List.mem_cons_of_mem a (mem_pyReplaceDelGo pat 0 rest c h)

theorem mem_pyReplaceDel (pat s : Str) : ∀ c ∈ pyReplaceDel pat s, c ∈ s := by
  intro c hc
  unfold pyReplaceDel at hc
  by_cases hp : pat.isEmpty = true
  · simpa [hp] using hc
  · simp only [hp] at hc
    simp at hc
    exact mem_pyReplaceDelGo pat 0 s c hc

theorem mem_stripLegalSuffixesFold :
    ∀ (ps : List Str) (u : Str),
      ∀ c ∈ ps.foldl (fun acc p => pyStrip (pyReplaceDel p acc)) u, c ∈ u
  | [], _, _, h => h
  | p :: ps, u, c, h => by
    have h2 := mem_stripLegalSuffixesFold ps (pyStrip (pyReplaceDel p u)) c h
    exact mem_pyReplaceDel p u c (mem_pyStrip _ c h2)

theorem mem_stripLegalSuffixes (u : Str) : ∀ c ∈ stripLegalSuffixes u, c ∈ u :=
  mem_stripLegalSuffixesFold suffixList u

theorem mem_punctToSpace (u : Str) :
    ∀ c ∈ punctToSpace u,
      c = ' ' ∨ (c ∈ u ∧ (isWordChar c || isPySpace c) = true) := by
  intro c hc
  unfold punctToSpace at hc
  rcases List.mem_map.mp hc with ⟨x, hx, hfx⟩
  by_cases hcls : (isWordChar x || isPySpace x) = true
  · right
    simp only [hcls, if_true] at hfx
    subst hfx
    exact ⟨hx, hcls⟩
  · left
    simp only [hcls, if_false] at hfx
    exact hfx.symm

theorem mem_collapseWsGo :
    ∀ (b : Bool) (u : Str), ∀ c ∈ collapseWsGo b u,
      c = ' ' ∨ (c ∈ u ∧ isPySpace c = false)
  | _, [], _, h => by simp [collapseWsGo] at h
  | b, a :: rest, c, h => by
    unfold collapseWsGo at h
    by_cases ha : isPySpace a = true
    · simp only [ha, if_true] at h
      cases b with
      | true =>
        rcases mem_collapseWsGo true rest c h with h2 | h2
        · exact Or.inl h2
        · exact Or.inr ⟨List.mem_cons_of_mem a h2.1, h2.2⟩
      | false =>
        simp at h
        rcases h with h | h
        · exact Or.inl h
        · rcases mem_collapseWsGo true rest c h with h2 | h2
          · exact Or.inl h2
          · exact Or.inr ⟨List.mem_cons_of_mem a h2.1, h2.2⟩
    · simp only [ha] at h
      simp at h
      rcases h with h | h
      · subst h
        exact Or.inr ⟨by simp, by simpa using ha⟩
      · rcases mem_collapseWsGo false rest c h with h2 | h2
        · exact Or.inl h2
        · exact Or.inr ⟨List.mem_cons_of_mem a h2.1, h2.2⟩

theorem dropWhile_dropWhile {α : Type} (p : α → Bool) :
    ∀ l : List α, (l.dropWhile p).dropWhile p = l.dropWhile p
  | [] => rfl
  | a :: rest => by
    by_cases ha : p a = true
    · simp [List.dropWhile, ha, dropWhile_dropWhile p rest]
    · simp [List.dropWhile, ha]

theorem dropWhile_head_false {α : Type} (p : α → Bool) :
    ∀ (l : List α) (a : α), (l.dropWhile p).head? = some a → p a = false
  | [], a, h => by simp [List.dropWhile] at h
  | b :: rest, a, h => by
    by_cases hb : p b = true
    · rw [List.dropWhile_cons_of_pos hb] at h
      exact dropWhile_head_false p rest a h
    · rw [List.dropWhile_cons_of_neg hb] at h
      simp at h
      subst h
      simpa using hb

theorem dropWhile_eq_self_of_head {α : Type} (p : α → Bool) (l : List α)
    (h : ∀ a, l.head? = some a → p a = false) : l.dropWhile p = l := by
  cases l with
  | nil => rfl
  | cons a rest =>
    have := h a (by simp)
    simp [List.dropWhile, this]

theorem dropTrailing_idem : ∀ l : Str, dropTrailing (dropTrailing l) = dropTrailing l
  | [] => rfl
  | a :: rest => by
    rw [dropTrailing_cons a rest]
    by_cases hcond : ((dropTrailing rest).isEmpty && isPySpace a) = true
    · rw [if_pos hcond]
      rfl
    · rw [if_neg hcond, dropTrailing_cons a (dropTrailing rest),
        dropTrailing_idem rest, if_neg hcond]

theorem dropTrailing_head : ∀ l : Str,
    dropTrailing l = [] ∨ (dropTrailing l).head? = l.head?
  | [] => Or.inl rfl
  | a :: rest => by
    rw [dropTrailing_cons a rest]
    by_cases hcond : ((dropTrailing rest).isEmpty && isPySpace a) = true
    · rw [if_pos hcond]
      exact Or.inl rfl
    · rw [if_neg hcond]
      exact Or.inr rfl

theorem pyStrip_idem (l : Str) : pyStrip (pyStrip l) = pyStrip l := by
  unfold pyStrip
  have hdw : (dropTrailing (l.dropWhile isPySpace)).dropWhile isPySpace =
      dropTrailing (l.dropWhile isPySpace) := by
    apply dropWhile_eq_self_of_head
    intro a ha
    rcases dropTrailing_head (l.dropWhile isPySpace) with h | h
    · rw [h] at ha
      simp at ha
    · rw [h] at ha
      exact dropWhile_head_false isPySpace l a ha
  rw [hdw, dropTrailing_idem]

theorem lowerPairs_snd_not_fst :
    ∀ q ∈ lowerPairs, ∀ r ∈ lowerPairs, r.fst ≠ q.snd := by decide

theorem pyLowerChar_fix (c : Char) : pyLowerChar (pyLowerChar c) = pyLowerChar c := by
  unfold pyLowerChar
  cases hfind : lowerPairs.find? (fun p => p.fst == c) with
  | none => simp [hfind]
  | some q =>
    have hq : q ∈ lowerPairs := List.mem_of_find?_eq_some hfind
    have hnone : lowerPairs.find? (fun p => p.fst == q.snd) = none := by
      rw [List.find?_eq_none]
      intro r hr
      have := lowerPairs_snd_not_fst q hq r hr
      simp [this]
    simp [hfind, hnone]

/-! ## No two adjacent whitespace characters -/

/-- No two adjacent whitespace characters. Stated as an inductive predicate
so that unification of two `NoAdjWs` statements never evaluates the indexing
list. -/
inductive NoAdjWs : Str → Prop where
  | nil : NoAdjWs []
  | single (c : Char) : NoAdjWs [c]
  | cons (a b : Char) (rest : Str)
      (hab : ¬(isPySpace a = true ∧ isPySpace b = true))
      (ht : NoAdjWs (b :: rest)) : NoAdjWs (a :: b :: rest)

theorem NoAdjWs.tail : ∀ {a : Char} {l : Str}, NoAdjWs (a :: l) → NoAdjWs l
  | _, [], _ => NoAdjWs.nil
  | _, _ :: _, h => by cases h; assumption

theorem NoAdjWs.headPair {a b : Char} {l : Str} (h : NoAdjWs (a :: b :: l)) :
    ¬(isPySpace a = true ∧ isPySpace b = true) := by
  cases h
  assumption

theorem noAdjWs_cons (a : Char) (l : Str)
    (hhead : ∀ d, l.head? = some d → ¬(isPySpace a = true ∧ isPySpace d = true))
    (h : NoAdjWs l) : NoAdjWs (a :: l) := by
  cases l with
  | nil => exact NoAdjWs.single a
  | cons b rest => exact NoAdjWs.cons a b rest (hhead b rfl) h

theorem collapseWsGo_true_head :
    ∀ (u : Str) (d : Char), (collapseWsGo true u).head? = some d → isPySpace d = false
  | [], d, h => by simp [collapseWsGo] at h
  | a :: rest, d, h => by
    unfold collapseWsGo at h
    by_cases ha : isPySpace a = true
    · simp only [ha, if_true] at h
      exact collapseWsGo_true_head rest d h
    · simp only [ha] at h
      simp at h
      rw [← h]
      simpa using ha

theorem collapseWsGo_noAdj :
    ∀ (u : Str) (b : Bool), NoAdjWs (collapseWsGo b u)
  | [], b => by cases b <;> exact NoAdjWs.nil
  | a :: rest, b => by
    unfold collapseWsGo
    by_cases ha : isPySpace a = true
    · rw [if_pos ha]
      cases b with
      | true =>
        rw [if_pos rfl]
        exact collapseWsGo_noAdj rest true
      | false =>
        rw [if_neg (by simp)]
        apply noAdjWs_cons
        · intro d hd
          have hns := collapseWsGo_true_head rest d hd
          intro hcontra
          rw [hns] at hcontra
          exact absurd hcontra.2 (by simp)
        · exact collapseWsGo_noAdj rest true
    · rw [if_neg ha]
      apply noAdjWs_cons
      · intro d _ hcontra
        exact ha hcontra.1
      · exact collapseWsGo_noAdj rest false

theorem noAdj_dropWhile {p : Char → Bool} :
    ∀ l : Str, NoAdjWs l → NoAdjWs (l.dropWhile p)
  | [], h => h
  | a :: rest, h => by
    by_cases ha : p a = true
    · rw [List.dropWhile_cons_of_pos ha]
      exact noAdj_dropWhile rest h.tail
    · rwa [List.dropWhile_cons_of_neg ha]

theorem noAdj_dropTrailing :
    ∀ l : Str, NoAdjWs l → NoAdjWs (dropTrailing l)
  | [], h => h
  | a :: rest, h => by
    rw [dropTrailing_cons a rest]
    by_cases hcond : ((dropTrailing rest).isEmpty && isPySpace a) = true
    · rw [if_pos hcond]
      exact NoAdjWs.nil
    · rw [if_neg hcond]
      apply noAdjWs_cons
      · intro d hd
        rcases dropTrailing_head rest with he | he
        · rw [he] at hd
          simp at hd
        · rw [he] at hd
          cases rest with
          | nil => simp at hd
          | cons e rest2 =>
            simp at hd
            subst hd
            exact h.headPair
      · exact noAdj_dropTrailing rest h.tail

theorem noAdj_pyStrip (l : Str) (h : NoAdjWs l) : NoAdjWs (pyStrip l) :=
  noAdj_dropTrailing _ (noAdj_dropWhile l h)

/-! ## Identity lemmas on already-normalized strings -/

theorem wordChar_not_space (c : Char) (h : isPySpace c = true) : isWordChar c = false := by
  have h6 : c = ' ' ∨ c = '\t' ∨ c = '\n' ∨ c = '\r' ∨ c = '\x0b' ∨ c = '\x0c' := by
    simp only [isPySpace, Bool.or_eq_true, beq_iff_eq] at h
    tauto
  rcases h6 with h1 | h1 | h1 | h1 | h1 | h1 <;> subst h1 <;> decide

theorem punctToSpace_id_of (u : Str)
    (h : ∀ c ∈ u, isWordChar c = true ∨ c = ' ') : punctToSpace u = u := by
  apply mapFixOfMem
  intro c hc
  rcases h c hc with hw | hw
  · simp [hw]
  · subst hw
    decide

theorem collapseWsGo_flag (rest : Str)
    (h : ∀ d, rest.head? = some d → isPySpace d = false) :
    collapseWsGo true rest = collapseWsGo false rest := by
  cases rest with
  | nil => rfl
  | cons d rest2 =>
    have hd := h d (by simp)
    unfold collapseWsGo
    rw [if_neg (by simp [hd]), if_neg (by simp [hd])]

theorem collapseWs_id_of :
    ∀ u : Str, (∀ c ∈ u, isWordChar c = true ∨ c = ' ') →
      NoAdjWs u → collapseWsGo false u = u
  | [], _, _ => rfl
  | a :: rest, h, hchain => by
    unfold collapseWsGo
    by_cases ha : isPySpace a = true
    · rw [if_pos ha, if_neg (by simp)]
      have haSp : a = ' ' := by
        rcases h a (by simp) with hw | hw
        · rw [wordChar_not_space a ha] at hw
          exact absurd hw (by simp)
        · exact hw
      have hrest : ∀ d, rest.head? = some d → isPySpace d = false := by
        intro d hd
        cases rest with
        | nil => simp at hd
        | cons e rest2 =>
          simp at hd
          subst hd
          by_contra hcon
          simp at hcon
          exact hchain.headPair ⟨ha, hcon⟩
      rw [collapseWsGo_flag rest hrest]
      rw [collapseWs_id_of rest (fun c hc => h c (by simp [hc])) hchain.tail]
      rw [haSp]
    · rw [if_neg ha]
      rw [collapseWs_id_of rest (fun c hc => h c (by simp [hc])) hchain.tail]

theorem pyReplaceDelGo_id (pat : Str) :
    ∀ s : Str, occursIn pat s = false → pyReplaceDelGo pat 0 s = s
  | [], _ => rfl
  | c :: rest, h => by
    unfold occursIn at h
    rw [Bool.or_eq_false_iff] at h
    unfold pyReplaceDelGo
    rw [if_neg (by simp [h.1])]
    rw [pyReplaceDelGo_id pat rest h.2]

theorem pyReplaceDel_id (pat s : Str) (h : occursIn pat s = false) :
    pyReplaceDel pat s = s := by
  unfold pyReplaceDel
  by_cases hp : pat.isEmpty = true
  · rw [if_pos hp]
  · rw [if_neg hp]
    exact pyReplaceDelGo_id pat s h

theorem stripSuffixFold_id :
    ∀ (ps : List Str) (u : Str), (∀ p ∈ ps, occursIn p u = false) →
      pyStrip u = u → ps.foldl (fun acc p => pyStrip (pyReplaceDel p acc)) u = u
  | [], _, _, _ => rfl
  | p :: ps, u, h, hstrip => by
    simp only [List.foldl_cons]
    rw [pyReplaceDel_id p u (h p (by simp)), hstrip]
    exact stripSuffixFold_id ps u (fun q hq => h q (by simp [hq])) hstrip

theorem stripLegalSuffixes_id (u : Str)
    (h : ∀ p ∈ suffixList, occursIn p u = false) (hstrip : pyStrip u = u) :
    stripLegalSuffixes u = u :=
  stripSuffixFold_id suffixList u h hstrip

/-! ## The output of `pyNormalizeName` is clean -/

theorem norm_strip_fix (s : Str) :
    pyStrip (pyNormalizeName s) = pyNormalizeName s := by
  unfold pyNormalizeName
  exact pyStrip_idem _

theorem norm_lower_fix (s : Str) :
    ∀ c ∈ pyNormalizeName s, pyLowerChar c = c := by
  intro c hc
  unfold pyNormalizeName at hc
  have h1 := mem_pyStrip _ c hc
  unfold collapseWs at h1
  rcases mem_collapseWsGo false _ c h1 with h2 | h2
  · subst h2
    decide
  · rcases mem_punctToSpace _ c h2.1 with h3 | h3
    · subst h3
      decide
    · have h4 := mem_pyStrip _ c (mem_stripLegalSuffixes _ c h3.1)
      unfold pyLower at h4
      rcases List.mem_map.mp h4 with ⟨d, _, hd⟩
      rw [← hd]
      exact pyLowerChar_fix d

theorem norm_wordOrSpace (s : Str) :
    ∀ c ∈ pyNormalizeName s, isWordChar c = true ∨ c = ' ' := by
  intro c hc
  unfold pyNormalizeName at hc
  have h1 := mem_pyStrip _ c hc
  unfold collapseWs at h1
  rcases mem_collapseWsGo false _ c h1 with h2 | h2
  · exact Or.inr h2
  · rcases mem_punctToSpace _ c h2.1 with h3 | h3
    · exact Or.inr h3
    · have h4 := h3.2
      simp only [Bool.or_eq_true] at h4
      rcases h4 with h4 | h4
      · exact Or.inl h4
      · rw [h2.2] at h4
        exact absurd h4 (by simp)

theorem noAdj_collapseWs (u : Str) : NoAdjWs (collapseWs u) :=
  collapseWsGo_noAdj u false

theorem norm_noAdj (s : Str) : NoAdjWs (pyNormalizeName s) := by
  unfold pyNormalizeName collapseWs
  exact noAdj_pyStrip _ (collapseWsGo_noAdj _ false)

theorem pyLower_id_of (u : Str) (h : ∀ c ∈ u, pyLowerChar c = c) : pyLower u = u :=
  mapFixOfMem pyLowerChar u h

/-! ## Claim C4: idempotence of normalization -/

/-- C4 (counterexample): normalization is not idempotent on the code as
written: for the input "ssaa" one pass yields "sa" (the single-pass
substring replacement of 'sa' leaves a new occurrence behind), and a second
pass strips that to the empty string. -/
theorem c4_counterexample :
    pyNormalizeName (pyNormalizeName ("ssaa".toList)) ≠
      pyNormalizeName ("ssaa".toList) ∧
    pyNormalizeName ("ssaa".toList) = ("sa".toList) ∧
    pyNormalizeName (pyNormalizeName ("ssaa".toList)) = [] := by decide

/-- C4 (amended): `normalize_name` is idempotent on every string whose
normalized form contains none of the nine suffix substrings of the stripping
loop; in general a second pass can strip further (see the counterexample). -/
theorem c4_amended (s : Str)
    (h : ∀ p ∈ suffixList, occursIn p (pyNormalizeName s) = false) :
    pyNormalizeName (pyNormalizeName s) = pyNormalizeName s := by
  have h1 : pyLower (pyNormalizeName s) = pyNormalizeName s :=
    pyLower_id_of _ (norm_lower_fix s)
  have h2 : pyStrip (pyNormalizeName s) = pyNormalizeName s := norm_strip_fix s
  have h3 : stripLegalSuffixes (pyNormalizeName s) = pyNormalizeName s :=
    stripLegalSuffixes_id _ h h2
  have h4 : punctToSpace (pyNormalizeName s) = pyNormalizeName s :=
    punctToSpace_id_of _ (norm_wordOrSpace s)
  have h5 : collapseWs (pyNormalizeName s) = pyNormalizeName s := by
    unfold collapseWs
    exact collapseWs_id_of _ (norm_wordOrSpace s) (norm_noAdj s)
  calc pyNormalizeName (pyNormalizeName s)
      = pyStrip (collapseWs (punctToSpace (stripLegalSuffixes
          (pyStrip (pyLower (pyNormalizeName s)))))) := rfl
    _ = pyNormalizeName s := by rw [h1, h2, h3, h4, h5, h2]

/-- C4 witness: the amended idempotence at a concrete suffix-free input. -/
theorem c4_witness :
    pyNormalizeName (pyNormalizeName ("Tractorul Brasov Heritage".toList)) =
      pyNormalizeName ("Tractorul Brasov Heritage".toList) :=
  c4_amended _ (by decide)

/-! ## Claim C5: token-boundary suffix stripping -/

/-- C5 (counterexample): the suffix stripping is a naive substring
replacement: the word "salariat", which merely contains "sa" inside, is
corrupted by normalization to "lariat". -/
theorem c5_counterexample :
    pyNormalizeName ("salariat".toList) = ("lariat".toList) ∧
    pyNormalizeName ("salariat".toList) ≠ ("salariat".toList) := by decide

/-- C5 (amended): the suffix loop removes its nine substrings wherever they
occur, regardless of token boundaries; a lowered, trimmed string passes the
loop unchanged when none of those substrings occurs in it, in which case
normalization is only case folding, punctuation removal and whitespace
collapsing. -/
theorem c5_amended (s : Str)
    (h : ∀ p ∈ suffixList, occursIn p (pyStrip (pyLower s)) = false) :
    stripLegalSuffixes (pyStrip (pyLower s)) = pyStrip (pyLower s) ∧
    pyNormalizeName s = pyStrip (collapseWs (punctToSpace (pyStrip (pyLower s)))) := by
  have h1 : stripLegalSuffixes (pyStrip (pyLower s)) = pyStrip (pyLower s) :=
    stripLegalSuffixes_id _ h (pyStrip_idem _)
  refine ⟨h1, ?_⟩
  unfold pyNormalizeName
  rw [h1]

/-- C5 witness: the amended statement at a concrete suffix-free input. -/
theorem c5_witness :
    stripLegalSuffixes (pyStrip (pyLower ("Uzina Mecanica Cugir".toList))) =
      pyStrip (pyLower ("Uzina Mecanica Cugir".toList)) ∧
    pyNormalizeName ("Uzina Mecanica Cugir".toList) =
      pyStrip (collapseWs (punctToSpace
        (pyStrip (pyLower ("Uzina Mecanica Cugir".toList))))) :=
  c5_amended _ (by decide)

/-! ## Claims C6, C7, C8: the similarity scorer -/

theorem bonus_foldl :
    ∀ (l : List Str) (init : ℚ),
      l.foldl (fun acc w => if w ∈ importantWords then acc + 1 / 10 else acc) init =
        init + ((l.filter (fun w => decide (w ∈ importantWords))).length : ℚ) * (1 / 10)
  | [], init => by simp
  | w :: l, init => by
    by_cases hw : w ∈ importantWords
    · rw [List.foldl_cons, if_pos hw, bonus_foldl l (init + 1 / 10),
        List.filter_cons_of_pos (by simpa using hw), List.length_cons]
      push_cast
      ring
    · rw [List.foldl_cons, if_neg hw, bonus_foldl l init,
        List.filter_cons_of_neg (by simpa using hw)]

/-- C6: when neither the exact-match rule nor the containment rule applies,
the similarity equals the specification's word-overlap formula: word sets
excluding tokens of length ≤ 2, score `|intersection| / max` (0.0 when either
set is empty), plus 0.1 per common city token, clamped at 1.0. -/
theorem c6_theorem (a b : Str)
    (hne : pyNormalizeName a ≠ pyNormalizeName b)
    (h1 : occursIn (pyNormalizeName a) (pyNormalizeName b) = false)
    (h2 : occursIn (pyNormalizeName b) (pyNormalizeName a) = false) :
    calculateCompanySimilarity a b = wordOverlapScoreSpec a b := by
  simp only [calculateCompanySimilarity, wordOverlapScoreSpec]
  rw [if_neg hne, if_neg (by simp [h1, h2])]
  by_cases he : ((wordTokens (pyNormalizeName a)).isEmpty ||
      (wordTokens (pyNormalizeName b)).isEmpty) = true
  · rw [if_pos he, if_pos he]
  · rw [if_neg he, if_neg he]
    by_cases hc : ((wordTokens (pyNormalizeName a)).filter
        (fun w => decide (w ∈ wordTokens (pyNormalizeName b)))).isEmpty = true
    · rw [if_pos hc]
      have hnil : (wordTokens (pyNormalizeName a)).filter
          (fun w => decide (w ∈ wordTokens (pyNormalizeName b))) = [] :=
        List.isEmpty_iff.mp hc
      rw [hnil]
      simp
    · rw [if_neg hc, bonus_foldl]

/-- C6 witness: two names that fall through to the word-overlap branch. -/
theorem c6_witness :
    pyNormalizeName ("Fabrica Alfa Unu".toList) ≠
      pyNormalizeName ("Fabrica Alfa Doi".toList) ∧
    occursIn (pyNormalizeName ("Fabrica Alfa Unu".toList))
      (pyNormalizeName ("Fabrica Alfa Doi".toList)) = false ∧
    occursIn (pyNormalizeName ("Fabrica Alfa Doi".toList))
      (pyNormalizeName ("Fabrica Alfa Unu".toList)) = false ∧
    calculateCompanySimilarity ("Fabrica Alfa Unu".toList) ("Fabrica Alfa Doi".toList) =
      wordOverlapScoreSpec ("Fabrica Alfa Unu".toList) ("Fabrica Alfa Doi".toList) :=
  ⟨by decide, by decide, by decide,
    c6_theorem _ _ (by decide) (by decide) (by decide)⟩

/-- C7: for unequal normalized forms where one is a non-empty substring of
the other, the similarity is `min(len) / max(len) * 0.9`. -/
theorem c7_theorem (a b : Str)
    (hne : pyNormalizeName a ≠ pyNormalizeName b)
    (hsub : (pyNormalizeName a ≠ [] ∧
        occursIn (pyNormalizeName a) (pyNormalizeName b) = true) ∨
      (pyNormalizeName b ≠ [] ∧
        occursIn (pyNormalizeName b) (pyNormalizeName a) = true)) :
    calculateCompanySimilarity a b =
      (Nat.min (pyNormalizeName a).length (pyNormalizeName b).length : ℚ) /
        (Nat.max (pyNormalizeName a).length (pyNormalizeName b).length : ℚ) *
        (9 / 10) := by
  simp only [calculateCompanySimilarity]
  rw [if_neg hne, if_pos]
  rcases hsub with ⟨_, hocc⟩ | ⟨_, hocc⟩ <;> simp [hocc]

/-- C7 witness: containment of "steagul rosu brasov" in a longer name. -/
theorem c7_witness :
    pyNormalizeName ("Steagul Rosu Brasov".toList) ≠
      pyNormalizeName ("Steagul Rosu Brasov Heritage SRL".toList) ∧
    pyNormalizeName ("Steagul Rosu Brasov".toList) ≠ [] ∧
    occursIn (pyNormalizeName ("Steagul Rosu Brasov".toList))
      (pyNormalizeName ("Steagul Rosu Brasov Heritage SRL".toList)) = true ∧
    calculateCompanySimilarity ("Steagul Rosu Brasov".toList)
      ("Steagul Rosu Brasov Heritage SRL".toList) =
      (Nat.min (pyNormalizeName ("Steagul Rosu Brasov".toList)).length
          (pyNormalizeName ("Steagul Rosu Brasov Heritage SRL".toList)).length : ℚ) /
        (Nat.max (pyNormalizeName ("Steagul Rosu Brasov".toList)).length
          (pyNormalizeName ("Steagul Rosu Brasov Heritage SRL".toList)).length : ℚ) *
        (9 / 10) :=
  ⟨by decide, by decide, by decide,
    c7_theorem _ _ (by decide) (Or.inl ⟨by decide, by decide⟩)⟩

/-- C8 (counterexample): two names consisting only of legal suffixes both
normalize to the empty string, and the exact-match rule then scores them
1.0, not 0.0. -/
theorem c8_counterexample :
    pyNormalizeName ("SRL".toList) = [] ∧
    pyNormalizeName ("SA".toList) = [] ∧
    calculateCompanySimilarity ("SRL".toList) ("SA".toList) = 1 := by decide

/-- C8 (amended): the exact-match rule fires on any equal normalized forms,
the empty string included: equality of normalized names always scores 1.0,
with no non-emptiness requirement. -/
theorem c8_amended (a b : Str) (h : pyNormalizeName a = pyNormalizeName b) :
    calculateCompanySimilarity a b = 1 := by
  simp only [calculateCompanySimilarity]
  rw [if_pos h]

/-- C8 witness: the amended rule at the empty-normalization pair. -/
theorem c8_witness : calculateCompanySimilarity ("SC SRL".toList) ("SA SA".toList) = 1 :=
  c8_amended _ _ (by decide)

/-! ## Claim C9: null handling -/

theorem collectCandidatesE_eq (h : Str) :
    ∀ clients : List PyUser,
      collectCandidatesE (some h) clients =
        .ok (clients.filterMap (candidateOf (some h)))
  | [] => rfl
  | c :: rest => by
    have ih := collectCandidatesE_eq h rest
    unfold collectCandidatesE
    rw [List.filterMap_cons]
    by_cases hcomp : truthyStr c.companyName = true
    · obtain ⟨cn, hcn⟩ : ∃ cn, c.companyName = some cn := by
        cases hx : c.companyName with
        | none => rw [hx] at hcomp; simp [truthyStr] at hcomp
        | some cn => exact ⟨cn, rfl⟩
      rw [hcn] at hcomp
      have hni : (!truthyStr (some cn)) = false := by simp [hcomp]
      have hso : calculateCompanySimilarityOpt (some h) (some cn) =
          .ok (calculateCompanySimilarity h cn) := rfl
      simp only [hcn, hni, Bool.false_eq_true, if_false, hso, ih, candidateOf,
        Option.getD_some]
      by_cases ht : 6 / 10 ≤ calculateCompanySimilarity h cn
      · rw [if_pos ht, if_pos ht]
      · rw [if_neg ht, if_neg ht]
    · have hcf : truthyStr c.companyName = false := by
        cases hx : truthyStr c.companyName
        · rfl
        · exact absurd hx hcomp
      have hni : (!truthyStr c.companyName) = true := by simp [hcf]
      simp only [hni, if_true, ih, candidateOf, Bool.true_eq_false, if_true]

/-- C9 (counterexample): `normalize_name` has no null guard: applied to
`None` it raises `AttributeError` instead of returning the empty string, and
so does similarity scoring on a null name. -/
theorem c9_counterexample :
    pyNormalizeNameOpt none = .error .attributeError ∧
    calculateCompanySimilarityOpt none (some ("Tractorul".toList)) =
      .error .attributeError := ⟨rfl, rfl⟩

/-- C9 (amended): `normalize_name` is total on every non-null string (with
empty input normalizing to the empty string), and the engine never invokes it
on a null name: `find_potential_owners_for_holder` returns an empty list for
a falsy holder name, skips clients with falsy company names, and never
raises — the exception-aware model always returns `ok` and agrees with the
pure model. -/
theorem c9_amended :
    (∀ s : Str, pyNormalizeNameOpt (some s) = .ok (pyNormalizeName s)) ∧
    pyNormalizeName [] = [] ∧
    (∀ (users : List PyUser) (excl : Option Nat),
      findPotentialOwnersForHolderE users none excl = .ok []) ∧
    (∀ (users : List PyUser) (holder : Option Str) (excl : Option Nat),
      findPotentialOwnersForHolderE users holder excl =
        .ok (findPotentialOwnersForHolder users holder excl)) := by
  refine ⟨fun s => rfl, by decide, fun users excl => rfl, ?_⟩
  intro users holder excl
  unfold findPotentialOwnersForHolderE findPotentialOwnersForHolder
  by_cases hh : truthyStr holder = true
  · rw [if_neg (by simp [hh]), if_neg (by simp [hh])]
    obtain ⟨h, hsome⟩ : ∃ h, holder = some h := by
      cases hx : holder with
      | none => rw [hx] at hh; simp [truthyStr] at hh
      | some h => exact ⟨h, rfl⟩
    subst hsome
    rw [collectCandidatesE_eq h (eligibleClients users excl)]
  · have hf : truthyStr holder = false := by
      cases hx : truthyStr holder
      · rfl
      · exact absurd hx hh
    rw [if_pos (by simp [hf]), if_pos (by simp [hf])]

/-! ## Candidate membership -/

theorem mem_eligibleClients (users : List PyUser) (excl : Option Nat) (u : PyUser)
    (h : u ∈ eligibleClients users excl) :
    u ∈ users ∧ u.role = rClient ∧ (truthyNat excl = true → u.id ≠ excl.getD 0) := by
  simp only [eligibleClients] at h
  by_cases he : truthyNat excl = true
  · rw [if_pos he] at h
    rcases List.mem_filter.mp h with ⟨h1, h2⟩
    rcases List.mem_filter.mp h1 with ⟨h3, h4⟩
    exact ⟨h3, by simpa using h4, fun _ => by simpa using h2⟩
  · rw [if_neg he] at h
    rcases List.mem_filter.mp h with ⟨h3, h4⟩
    exact ⟨h3, by simpa using h4, fun hx => absurd hx he⟩

theorem candidateOf_eq_some (holder : Option Str) (c : PyUser) (cand : Candidate)
    (h : candidateOf holder c = some cand) :
    truthyStr c.companyName = true ∧
    6 / 10 ≤ calculateCompanySimilarity (holder.getD []) ((c.companyName).getD []) ∧
    cand = mkCandidate c
      (calculateCompanySimilarity (holder.getD []) ((c.companyName).getD [])) := by
  unfold candidateOf at h
  by_cases hcomp : truthyStr c.companyName = true
  · rw [if_neg (by simp [hcomp])] at h
    by_cases ht : 6 / 10 ≤
        calculateCompanySimilarity (holder.getD []) ((c.companyName).getD [])
    · rw [if_pos ht] at h
      exact ⟨hcomp, ht, (Option.some.inj h).symm⟩
    · rw [if_neg ht] at h
      exact absurd h (by simp)
  · have hcf : truthyStr c.companyName = false := by
      cases hx : truthyStr c.companyName
      · rfl
      · exact absurd hx hcomp
    rw [if_pos (by simp [hcf])] at h
    exact absurd h (by simp)

theorem mem_findPotentialOwners (users : List PyUser) (holder : Option Str)
    (excl : Option Nat) (cand : Candidate)
    (h : cand ∈ findPotentialOwnersForHolder users holder excl) :
    ∃ u ∈ users, u.role = rClient ∧
      (truthyNat excl = true → u.id ≠ excl.getD 0) ∧
      truthyStr u.companyName = true ∧
      6 / 10 ≤ calculateCompanySimilarity (holder.getD []) ((u.companyName).getD []) ∧
      cand = mkCandidate u
        (calculateCompanySimilarity (holder.getD []) ((u.companyName).getD [])) := by
  unfold findPotentialOwnersForHolder at h
  by_cases hh : truthyStr holder = true
  · rw [if_neg (by simp [hh])] at h
    have hperm := List.perm_insertionSort candidateBySimDesc
      ((eligibleClients users excl).filterMap (candidateOf holder))
    have h2 := hperm.mem_iff.mp h
    rcases List.mem_filterMap.mp h2 with ⟨u, hu, hbody⟩
    rcases mem_eligibleClients users excl u hu with ⟨humem, hurole, huexcl⟩
    rcases candidateOf_eq_some holder u cand hbody with ⟨hcomp, ht, hceq⟩
    exact ⟨u, humem, hurole, huexcl, hcomp, ht, hceq⟩
  · have hf : truthyStr holder = false := by
      cases hx : truthyStr holder
      · rfl
      · exact absurd hx hh
    rw [if_pos (by simp [hf])] at h
    exact absurd h (List.not_mem_nil cand)

/-! ## Claim C2: update-triggered reassignment -/

theorem mkCandidate_similarity (u : PyUser) (s : ℚ) : (mkCandidate u s).similarity = s := rfl

theorem mkCandidate_userId (u : PyUser) (s : ℚ) : (mkCandidate u s).userId = u.id := rfl

theorem applyFondUpdate_owner (f : FondRec) (upd : FondUpdateRec)
    (h : upd.ownerId = none) : (applyFondUpdate f upd).ownerId = f.ownerId := by
  simp [applyFondUpdate, h, setField]

theorem updateFond_cases (users : List PyUser) (f : FondRec) (upd : FondUpdateRec) :
    updateFond users f upd = applyFondUpdate f upd ∨
    ∃ best rest,
      findPotentialOwnersForHolder users ((applyFondUpdate f upd).holderName)
        f.ownerId = best :: rest ∧
      8 / 10 ≤ best.similarity ∧ 95 / 100 ≤ best.similarity ∧
      updateFond users f upd =
        { applyFondUpdate f upd with ownerId := some best.userId } := by
  simp only [updateFond]
  by_cases hcond : (f.holderName ≠ (applyFondUpdate f upd).holderName ∧
      truthyStr (applyFondUpdate f upd).holderName = true ∧
      truthyStr f.holderName = true)
  · rw [if_pos hcond]
    rcases hpot : findPotentialOwnersForHolder users
        ((applyFondUpdate f upd).holderName) f.ownerId with _ | ⟨best, rest⟩
    · exact Or.inl rfl
    · by_cases h8 : 8 / 10 ≤ best.similarity
      · by_cases h95 : 95 / 100 ≤ best.similarity
        · refine Or.inr ⟨best, rest, rfl, h8, h95, ?_⟩
          dsimp only
          rw [if_pos h8, if_pos h95]
        · refine Or.inl ?_
          dsimp only
          rw [if_pos h8, if_neg h95]
      · refine Or.inl ?_
        dsimp only
        rw [if_neg h8]
  · rw [if_neg hcond]
    exact Or.inl rfl

/-- C2: on a fond update whose payload does not set `owner_id`, the stored
owner changes only when some client distinct from the current owner (never
the current owner itself, which is excluded) scores at least 0.95 against the
new holder name, in which case the new owner is that client; when every such
client scores below 0.95 the owner is unchanged; and no candidate the engine
produces for this update carries the current owner's identity. -/
theorem c2_theorem (users : List PyUser) (f : FondRec) (upd : FondUpdateRec)
    (hOwner : f.ownerId ≠ some 0) (hNoSet : upd.ownerId = none) :
    ((updateFond users f upd).ownerId ≠ f.ownerId →
      ∃ u ∈ users, u.role = rClient ∧ some u.id ≠ f.ownerId ∧
        truthyStr u.companyName = true ∧
        95 / 100 ≤ calculateCompanySimilarity
          (((applyFondUpdate f upd).holderName).getD []) ((u.companyName).getD []) ∧
        (updateFond users f upd).ownerId = some u.id) ∧
    ((∀ u ∈ users, u.role = rClient → some u.id ≠ f.ownerId →
        truthyStr u.companyName = true →
        calculateCompanySimilarity (((applyFondUpdate f upd).holderName).getD [])
          ((u.companyName).getD []) < 95 / 100) →
      (updateFond users f upd).ownerId = f.ownerId) ∧
    (∀ cand ∈ findPotentialOwnersForHolder users
        ((applyFondUpdate f upd).holderName) f.ownerId,
      some cand.userId ≠ f.ownerId) := by
  have hDistinct : ∀ (u : PyUser), (truthyNat f.ownerId = true → u.id ≠ f.ownerId.getD 0) →
      some u.id ≠ f.ownerId := by
    intro u hexcl
    cases hfo : f.ownerId with
    | none => simp
    | some i =>
      have hi : i ≠ 0 := fun h0 => hOwner (by rw [hfo, h0])
      have ht : truthyNat f.ownerId = true := by
        rw [hfo]
        simpa [truthyNat] using hi
      have := hexcl ht
      rw [hfo] at this
      simpa using this
  refine ⟨?_, ?_, ?_⟩
  · intro hne
    rcases updateFond_cases users f upd with hcase | ⟨best, rest, hpot, _, h95, heq⟩
    · rw [hcase, applyFondUpdate_owner f upd hNoSet] at hne
      exact absurd rfl hne
    · have hbestmem : best ∈ findPotentialOwnersForHolder users
          ((applyFondUpdate f upd).holderName) f.ownerId := by
        rw [hpot]
        exact List.mem_cons_self best rest
      rcases mem_findPotentialOwners _ _ _ _ hbestmem with
        ⟨u, humem, hurole, huexcl, hucomp, _, hcand⟩
      refine ⟨u, humem, hurole, hDistinct u huexcl, hucomp, ?_, ?_⟩
      · have hbs : best.similarity = calculateCompanySimilarity
            (((applyFondUpdate f upd).holderName).getD []) ((u.companyName).getD []) := by
          rw [hcand, mkCandidate_similarity]
        rw [← hbs]
        exact h95
      · rw [heq]
        have hbu : best.userId = u.id := by
          rw [hcand, mkCandidate_userId]
        show some best.userId = some u.id
        rw [hbu]
  · intro hall
    rcases updateFond_cases users f upd with hcase | ⟨best, rest, hpot, _, h95, heq⟩
    · rw [hcase]
      exact applyFondUpdate_owner f upd hNoSet
    · have hbestmem : best ∈ findPotentialOwnersForHolder users
          ((applyFondUpdate f upd).holderName) f.ownerId := by
        rw [hpot]
        exact List.mem_cons_self best rest
      rcases mem_findPotentialOwners _ _ _ _ hbestmem with
        ⟨u, humem, hurole, huexcl, hucomp, _, hcand⟩
      have hlt := hall u humem hurole (hDistinct u huexcl) hucomp
      have hbs : best.similarity = calculateCompanySimilarity
          (((applyFondUpdate f upd).holderName).getD []) ((u.companyName).getD []) := by
        rw [hcand, mkCandidate_similarity]
      rw [hbs] at h95
      exact absurd h95 (not_le.mpr hlt)
  · intro cand hcand
    rcases mem_findPotentialOwners _ _ _ _ hcand with
      ⟨u, _, _, huexcl, _, _, hceq⟩
    have hcu : cand.userId = u.id := by
      rw [hceq, mkCandidate_userId]
    rw [hcu]
    exact hDistinct u huexcl


/-- C2 witness: a payload changing the holder name to an exact (score 1.0)
match of a different client's company reassigns the owner to that client. -/
theorem c2_witness : (updateFond [c2User] c2Fond c2Upd).ownerId = some 1 := by
  have h := c2_theorem [c2User] c2Fond c2Upd (by decide) rfl
  have hne : (updateFond [c2User] c2Fond c2Upd).ownerId ≠ c2Fond.ownerId := by decide
  rcases h.1 hne with ⟨u, hu, _, _, _, _, howner⟩
  have hueq : u = c2User := by simpa using hu
  rw [howner, hueq]
  rfl

/-! ## Claim C1: auto-assignment on creation -/

theorem clientPool_mem (users : List PyUser) (u : PyUser) (h : u ∈ clientPool users) :
    u ∈ users ∧ u.role = rClient := by
  rcases List.mem_filter.mp h with ⟨h1, h2⟩
  exact ⟨h1, by simpa using h2⟩

theorem findClient_mem_role (users : List PyUser) (holder : Option Str) (u : PyUser)
    (h : findClientByCompanyName users holder = some u) :
    u ∈ users ∧ u.role = rClient := by
  unfold findClientByCompanyName at h
  by_cases hh : truthyStr holder = true
  · rw [if_neg (by simp [hh])] at h
    rcases hm1 : strategyOne (clientPool users)
        (pyStrip (pyLower (holder.getD []))) with _ | c1
    · rw [hm1] at h
      rcases hm2 : strategyTwo (clientPool users)
          (pyStrip (pyLower (holder.getD []))) with _ | c2
      · rw [hm2] at h
        exact clientPool_mem users u (List.mem_of_find?_eq_some h)
      · rw [hm2] at h
        have hc : c2 = u := by simpa using h
        subst hc
        exact clientPool_mem users c2 (List.mem_of_find?_eq_some hm2)
    · rw [hm1] at h
      have hc : c1 = u := by simpa using h
      subst hc
      exact clientPool_mem users c1 (List.mem_of_find?_eq_some hm1)
  · have hf : truthyStr holder = false := by
      cases hx : truthyStr holder
      · rfl
      · exact absurd hx hh
    rw [if_pos (by simp [hf])] at h
    exact absurd h (by simp)

theorem find_id_nodup :
    ∀ (users : List PyUser), (users.map PyUser.id).Nodup →
      ∀ u ∈ users, users.find? (fun v => v.id == u.id) = some u
  | [], _, u, hu => absurd hu (List.not_mem_nil u)
  | w :: rest, hnodup, u, hu => by
    have hnd : (∀ x ∈ rest, ¬x.id = w.id) ∧ (rest.map PyUser.id).Nodup := by
      simpa using hnodup
    rcases List.mem_cons.mp hu with he | he
    · subst he
      rw [List.find?_cons_of_pos _ (by simp)]
    · have hw : w.id ≠ u.id := fun hid => hnd.1 u he hid.symm
      rw [List.find?_cons_of_neg _ (by simp [hw])]
      have hrest : (rest.map PyUser.id).Nodup := hnd.2
      exact find_id_nodup rest hrest u he

/-- C1 (counterexample): with one client "Steagul Rosu Brasov" and holder
name "Steagul Rosu Brasov Heritage", the best candidate's similarity is
171/280 ≈ 0.61 — it clears the 0.6 ranker threshold but is far below 0.95 —
yet the create route auto-assigns the fond to that client instead of only
suggesting. -/
theorem c1_counterexample :
    (6 / 10 : ℚ) ≤ calculateCompanySimilarity tHolder ("Steagul Rosu Brasov".toList) ∧
    calculateCompanySimilarity tHolder ("Steagul Rosu Brasov".toList) < 95 / 100 ∧
    findPotentialOwnersForHolder [tUser1] (some tHolder) none ≠ [] ∧
    createFondRouteOwner [tUser1] tAdmin none (some tHolder) = .created (some 1) := by
  decide

/-- C1 (amended): during creation by an admin with no explicit owner, the
route auto-assigns exactly the first client matched by
`find_client_by_company_name` (exact lowercased equality, substring
containment, or at-least-half word overlap), with no similarity threshold and
no suggestion list; the owner stays unset only when no strategy matches. -/
theorem c1_amended (users : List PyUser) (cu : PyUser) (holder : Option Str)
    (hAdmin : cu.role = rAdmin) (hids : (users.map PyUser.id).Nodup) :
    createFondRouteOwner users cu none holder =
      .created ((findClientByCompanyName users holder).map (fun u => u.id)) := by
  unfold createFondRouteOwner
  rw [if_neg (by rw [hAdmin]; decide), if_pos hAdmin, if_neg (by decide)]
  rcases hfind : findClientByCompanyName users holder with _ | u
  · rfl
  · rcases findClient_mem_role users holder u hfind with ⟨humem, hurole⟩
    dsimp only
    unfold validateCreateOwner
    by_cases hz : u.id = 0
    · rw [if_neg (by simp [truthyNat, hz])]
    · rw [if_pos (by simp [truthyNat, hz])]
      show (match getUserById users u.id with
        | none => CreateOutcome.httpError 400
        | some owner => if owner.role = rClient then CreateOutcome.created (some u.id)
            else CreateOutcome.httpError 400) = CreateOutcome.created (some u.id)
      unfold getUserById
      rw [find_id_nodup users hids u humem]
      dsimp only
      rw [if_pos hurole]

/-- C1 witness: the amended statement at the counterexample pool. -/
theorem c1_witness :
    createFondRouteOwner [tUser1] tAdmin none (some tHolder) =
      .created ((findClientByCompanyName [tUser1] (some tHolder)).map (fun u => u.id)) :=
  c1_amended [tUser1] tAdmin (some tHolder) rfl (by decide)

/-! ## Claim C3: the PUT route calls an undefined function -/

/-- C3: `update_fond_with_reassignment_detection` is not among the functions
defined in `app.crud.fond`, so every authorized PUT /fonds/{id} request fails
with `AttributeError` when the route resolves that attribute — before
whatever the called function would have done (`k`) can run. -/
theorem c3_theorem :
    (("update_fond_with_reassignment_detection" : String) ∉ crudFondModuleNames) ∧
    ∀ (fonds : List FondRec) (cu : PyUser) (fondId : Nat)
      (k : List FondRec → RouteResult (List FondRec)),
      canUserEditFond fonds cu fondId = true →
      updateFondRoute fonds cu fondId k = .pyError .attributeError := by
  refine ⟨by decide, ?_⟩
  intro fonds cu fondId k hedit
  unfold updateFondRoute
  rw [if_neg (by simp [hedit])]
  have hattr : moduleAttr crudFondModuleNames
      ("update_fond_with_reassignment_detection") = .error .attributeError := by decide
  rw [hattr]

/-- C3 witness: an admin request on any state hits the AttributeError. -/
theorem c3_witness :
    updateFondRoute [] tAdmin 1 (fun st => RouteResult.ok st) =
      .pyError .attributeError :=
  c3_theorem.2 [] tAdmin 1 (fun st => RouteResult.ok st) (by decide)

/-! ## Claim C10: missing "confidence" key in the bulk scan -/

theorem bulkProcessFond_error (users : List PyUser) (applyAuto : Bool) (f : FondRec)
    (hq : qualifiesManualReview users applyAuto f = true) (st : BulkState) :
    bulkProcessFond users applyAuto st f = .error .keyError := by
  unfold qualifiesManualReview at hq
  unfold bulkProcessFond
  rcases hpot : findPotentialOwnersForHolder users f.holderName f.ownerId with _ | ⟨best, rest⟩
  · rw [hpot] at hq
    simp at hq
  · rw [hpot] at hq
    dsimp only at hq ⊢
    rw [Bool.and_eq_true] at hq
    have hb : (applyAuto && decide ((95 : ℚ) / 100 ≤ best.similarity)) = false := by
      have h2 := hq.2
      cases hx : (applyAuto && decide ((95 : ℚ) / 100 ≤ best.similarity))
      · rfl
      · rw [hx] at h2
        simp at h2
    rw [if_neg (by simp [hb]), if_pos hq.1]
    rfl

theorem bulkProcessFond_ok (users : List PyUser) (applyAuto : Bool) (f : FondRec)
    (hq : qualifiesManualReview users applyAuto f = false) (st : BulkState) :
    ∃ st2, bulkProcessFond users applyAuto st f = .ok st2 := by
  unfold qualifiesManualReview at hq
  unfold bulkProcessFond
  rcases hpot : findPotentialOwnersForHolder users f.holderName f.ownerId with _ | ⟨best, rest⟩
  · exact ⟨st, rfl⟩
  · rw [hpot] at hq
    dsimp only at hq ⊢
    by_cases hauto : (applyAuto && decide ((95 : ℚ) / 100 ≤ best.similarity)) = true
    · rw [if_pos hauto]
      rcases happ : applyReassignment users st.fonds f.id (some best.userId) with
        ⟨fonds2, success⟩
      cases success
      · exact ⟨_, rfl⟩
      · exact ⟨_, rfl⟩
    · have hb : (applyAuto && decide ((95 : ℚ) / 100 ≤ best.similarity)) = false := by
        cases hx : (applyAuto && decide ((95 : ℚ) / 100 ≤ best.similarity))
        · rfl
        · exact absurd hx hauto
      have h7 : decide ((7 : ℚ) / 10 ≤ best.similarity) = false := by
        rw [hb] at hq
        simpa using hq
      rw [if_neg hauto, if_neg (by simp [h7])]
      exact ⟨st, rfl⟩

theorem bulkFold_error (users : List PyUser) (applyAuto : Bool) :
    ∀ (l : List FondRec) (st : BulkState),
      (∃ f ∈ l, qualifiesManualReview users applyAuto f = true) →
      bulkFold users applyAuto st l = .error .keyError
  | [], st, h => by
    rcases h with ⟨f, hf, _⟩
    exact absurd hf (List.not_mem_nil f)
  | g :: rest, st, h => by
    unfold bulkFold
    by_cases hg : qualifiesManualReview users applyAuto g = true
    · rw [bulkProcessFond_error users applyAuto g hg st]
    · have hgf : qualifiesManualReview users applyAuto g = false := by
        cases hx : qualifiesManualReview users applyAuto g
        · rfl
        · exact absurd hx hg
      rcases bulkProcessFond_ok users applyAuto g hgf st with ⟨st2, hst2⟩
      rw [hst2]
      refine bulkFold_error users applyAuto rest st2 ?_
      rcases h with ⟨f, hf, hfq⟩
      rcases List.mem_cons.mp hf with he | he
      · subst he
        exact absurd hfq hg
      · exact ⟨f, he, hfq⟩

/-- C10: candidate dictionaries carry the key "match_type" but no key
"confidence", and for every scanned fond whose best candidate scores at
least 0.7 without being auto-applied, the bulk scan raises `KeyError` while
building the manual-review entry, instead of returning the report. -/
theorem c10_theorem :
    (∀ c : Candidate, candidateDictGet c ("confidence") = .error .keyError ∧
      candidateDictGet c ("match_type") = .ok (.vStr c.matchType)) ∧
    ∀ (users : List PyUser) (fonds : List FondRec) (applyAuto : Bool),
      (∃ f ∈ (fonds.filter (fun f => f.active)).take 1000,
        qualifiesManualReview users applyAuto f = true) →
      bulkCheckReassignments users fonds applyAuto = .error .keyError := by
  refine ⟨fun c => ⟨rfl, rfl⟩, ?_⟩
  intro users fonds applyAuto hex
  unfold bulkCheckReassignments
  dsimp only
  rw [bulkFold_error users applyAuto _ _ hex]

/-- C10 witness: a fond with a best candidate at 45/62 ≈ 0.73 makes the scan
raise `KeyError`. -/
theorem c10_witness :
    qualifiesManualReview [tUser2] false tFond2 = true ∧
    bulkCheckReassignments [tUser2] [tFond2] false = .error .keyError :=
  ⟨by decide, c10_theorem.2 [tUser2] [tFond2] false ⟨tFond2, by decide, by decide⟩⟩


end Arhivare
